import Mathlib

/- Verification development for the GraphGenerator repository.

   The file shallowly embeds `src/graphs.py`: the pydantic records `Node` and
   `Edge`, and the `Graph` container with its node/edge operations.  Python
   dictionaries are modelled as insertion-ordered association lists
   (assignment to an existing key replaces the value in place, assignment to a
   fresh key appends, deletion removes the entry); Python's `==` on pydantic
   models is field-wise structural equality, modelled by decidable equality on
   the mutually inductive `Node`/`Edge` values; a raised `KeyError`/`ValueError`
   is modelled by returning the partially mutated state together with an error
   marker, exactly at the program point where the Python exception is raised.
   Identifiers (`Union[str, int, uuid.UUID]`) are the inductive `Ident`; the
   opaque `additional_parameters` payload is modelled as `Option String` and
   the numeric `weighted_value` as `Int` (no claim depends on float/Decimal
   arithmetic). -/

namespace Graphs

/-- Identifier type of the source: `Union[str, int, uuid.UUID]`.  UUID values
are modelled as naturals. -/
inductive Ident where
  | str : String → Ident
  | int : Int → Ident
  | uuid : Nat → Ident
deriving DecidableEq, Repr

mutual
/-- Record `Node` of `src/graphs.py` (pydantic model): an identifier, the
adjacency list `connected_edges`, and the opaque payload. -/
inductive Node where
  | mk (id : Ident) (connected_edges : List Edge) (additional_parameters : Option String) : Node
/-- Record `Edge` of `src/graphs.py` (pydantic model): an identifier, the two
endpoint `Node` records, the direction flag and the numeric weight. -/
inductive Edge where
  | mk (id : Ident) (source_node : Node) (destination_node : Node)
       (is_bidirectional : Bool) (weighted_value : Int) : Edge
end

def Node.id : Node → Ident
  | .mk i _ _ => i

def Node.connected_edges : Node → List Edge
  | .mk _ es _ => es

def Node.additional_parameters : Node → Option String
  | .mk _ _ p => p

/-- Replace a node's adjacency list (models in-place mutation of the stored
node object's `connected_edges`). -/
def Node.withEdges : Node → List Edge → Node
  | .mk i _ p, es => .mk i es p

def Edge.id : Edge → Ident
  | .mk i _ _ _ _ => i

def Edge.source_node : Edge → Node
  | .mk _ s _ _ _ => s

def Edge.destination_node : Edge → Node
  | .mk _ _ d _ _ => d

def Edge.is_bidirectional : Edge → Bool
  | .mk _ _ _ b _ => b

def Edge.weighted_value : Edge → Int
  | .mk _ _ _ _ w => w

mutual

/-- Structural (pydantic `==`) equality on nodes, as a `Decidable` value. -/
def decEqNode : (a b : Node) → Decidable (a = b)
  | .mk i es p, .mk i' es' p' =>
    if h1 : i = i' then
      match decEqEdgeList es es' with
      | isTrue h2 =>
        if h3 : p = p' then isTrue (by rw [h1, h2, h3])
        else isFalse (by intro h; cases h; exact h3 rfl)
      | isFalse h2 => isFalse (by intro h; cases h; exact h2 rfl)
    else isFalse (by intro h; cases h; exact h1 rfl)

/-- Structural equality on lists of edges, as a `Decidable` value. -/
def decEqEdgeList : (l l' : List Edge) → Decidable (l = l')
  | [], [] => isTrue rfl
  | [], _ :: _ => isFalse (by intro h; cases h)
  | _ :: _, [] => isFalse (by intro h; cases h)
  | e :: r, e' :: r' =>
    match decEqEdge e e', decEqEdgeList r r' with
    | isTrue h1, isTrue h2 => isTrue (by rw [h1, h2])
    | isFalse h1, _ => isFalse (by intro h; cases h; exact h1 rfl)
    | _, isFalse h2 => isFalse (by intro h; cases h; exact h2 rfl)

/-- Structural (pydantic `==`) equality on edges, as a `Decidable` value. -/
def decEqEdge : (a b : Edge) → Decidable (a = b)
  | .mk i s d bd w, .mk i' s' d' bd' w' =>
    if h1 : i = i' then
      match decEqNode s s', decEqNode d d' with
      | isTrue h2, isTrue h3 =>
        if h4 : bd = bd' then
          if h5 : w = w' then isTrue (by rw [h1, h2, h3, h4, h5])
          else isFalse (by intro h; cases h; exact h5 rfl)
        else isFalse (by intro h; cases h; exact h4 rfl)
      | isFalse h2, _ => isFalse (by intro h; cases h; exact h2 rfl)
      | _, isFalse h3 => isFalse (by intro h; cases h; exact h3 rfl)
    else isFalse (by intro h; cases h; exact h1 rfl)

end

instance : DecidableEq Node := decEqNode

instance : DecidableEq Edge := decEqEdge

/- Python `dict` as an insertion-ordered association list. -/

/-- Dictionary lookup `d[k]` (first entry with the given key). -/
def dlookup {κ α : Type} [DecidableEq κ] (k : κ) : List (κ × α) → Option α
  | [] => none
  | (k', v) :: rest => if k = k' then some v else dlookup k rest

/-- Membership test `k in d`. -/
def dcontains {κ α : Type} [DecidableEq κ] (k : κ) (d : List (κ × α)) : Bool :=
  (dlookup k d).isSome

/-- Dictionary assignment `d[k] = v`: replaces the value in place if the key is
present, else appends a new entry (Python dicts preserve insertion order). -/
def dset {κ α : Type} [DecidableEq κ] (d : List (κ × α)) (k : κ) (v : α) : List (κ × α) :=
  if dcontains k d then d.map (fun p => if p.1 = k then (k, v) else p) else d ++ [(k, v)]

/-- Dictionary deletion `del d[k]` (keeps the order of the other entries). -/
def ddel {κ α : Type} [DecidableEq κ] (d : List (κ × α)) (k : κ) : List (κ × α) :=
  d.filter (fun p => decide (p.1 ≠ k))

/-- Python exceptions that `Graph`'s methods can raise. -/
inductive PyErr where
  | keyError : PyErr
  | valueError : PyErr
deriving DecidableEq, Repr

/-- State of class `Graph`: the node table `_nodes` and the edge table
`_edges`, both Python dicts keyed by identifier. -/
structure Graph where
  _nodes : List (Ident × Node)
  _edges : List (Ident × Edge)
deriving DecidableEq

/-- Method `Graph.__init__`: an empty graph. -/
def Graph.init : Graph := { _nodes := [], _edges := [] }

/-- Method `Graph.check_node_exist`: true iff every supplied node's id is a key
of the node table (the loop returns `False` at the first missing id). -/
def Graph.check_node_exist (g : Graph) : List Node → Bool
  | [] => true
  | n :: rest => if dcontains n.id g._nodes then g.check_node_exist rest else false

/-- Method `Graph.check_edge_exist`: true iff every supplied edge's id is a key
of the edge table. -/
def Graph.check_edge_exist (g : Graph) : List Edge → Bool
  | [] => true
  | e :: rest => if dcontains e.id g._edges then g.check_edge_exist rest else false

/-- Loop body of `Graph.add_nodes`: `self._nodes[node.id] = node` for each node. -/
def addNodesLoop (d : List (Ident × Node)) : List Node → List (Ident × Node)
  | [] => d
  | n :: rest => addNodesLoop (dset d n.id n) rest

/-- Method `Graph.add_nodes`: runs the insertion loop only when
`not self.check_node_exist(*nodes)`. -/
def Graph.add_nodes (g : Graph) (nodes : List Node) : Graph :=
  if !(g.check_node_exist nodes) then { g with _nodes := addNodesLoop g._nodes nodes } else g

/-- Default value of parameter `new_node_id` of `create_node`.  In the source it
is `uuid.uuid4()`, which Python evaluates ONCE, at function-definition time, so
every defaulted call shares this single fixed UUID value (modelled as an
arbitrary fixed identifier). -/
def create_node_default_id : Ident := Ident.uuid 0

/-- Method `Graph.create_node`: builds a `Node` record from the arguments and
delegates to `add_nodes`.  In the source, pydantic validation copies the
`initial_edges` list into the record; as values the adjacency list of the new
node equals `initial_edges`. -/
def Graph.create_node (g : Graph) (new_node_id : Ident) (initial_edges : List Edge)
    (additional_parameters : Option String) : Graph :=
  g.add_nodes [Node.mk new_node_id initial_edges additional_parameters]

/-- Call `g.create_node()` with every argument defaulted: uses the
once-evaluated default identifier and the (pydantic-copied) default empty list. -/
def Graph.create_node_defaulted (g : Graph) : Graph :=
  g.create_node create_node_default_id [] none

/-- Loop body of `Graph.remove_node`: `if node.id in self._nodes: del ...`. -/
def removeNodesLoop (d : List (Ident × Node)) : List Node → List (Ident × Node)
  | [] => d
  | n :: rest => removeNodesLoop (if dcontains n.id d then ddel d n.id else d) rest

/-- Method `Graph.remove_node`: runs the deletion loop only when
`self.check_node_exist(*nodes)` holds for the whole batch. -/
def Graph.remove_node (g : Graph) (nodes : List Node) : Graph :=
  if g.check_node_exist nodes then { g with _nodes := removeNodesLoop g._nodes nodes } else g

/-- Method `Graph.list_nodes`: the values of the node table in order. -/
def Graph.list_nodes (g : Graph) : List Node :=
  g._nodes.map Prod.snd

mutual

/-- Value-level `copy.deepcopy` of a node: a structural copy of the record and,
recursively, of its adjacency list. -/
def deepcopyNode : Node → Node
  | .mk i es p => .mk i (deepcopyEdgeList es) p

/-- Value-level `copy.deepcopy` of a list of edges. -/
def deepcopyEdgeList : List Edge → List Edge
  | [] => []
  | e :: r => deepcopyEdge e :: deepcopyEdgeList r

/-- Value-level `copy.deepcopy` of an edge, copying both endpoint nodes. -/
def deepcopyEdge : Edge → Edge
  | .mk i s d b w => .mk i (deepcopyNode s) (deepcopyNode d) b w

end

/-- Method `Graph.get_node_by_id`: `None` when the id is not a key of the node
table, else the stored node (deep-copied when `get_copy` is true). -/
def Graph.get_node_by_id (g : Graph) (node_id : Ident) (get_copy : Bool) : Option Node :=
  match dlookup node_id g._nodes with
  | some n => some (if get_copy then deepcopyNode n else n)
  | none => none

/-- Loop body of `Graph.add_edges`.  For each edge: insert into the edge table,
then append the edge to `self._nodes[edge.source_node.id].connected_edges`
(a `KeyError` is raised there when the source id is absent, AFTER the edge-table
insertion), then, if the edge is bidirectional, likewise for the destination. -/
def addEdgesLoop (g : Graph) : List Edge → Graph × Option PyErr
  | [] => (g, none)
  | e :: rest =>
    let g1 : Graph := { g with _edges := dset g._edges e.id e }
    match dlookup e.source_node.id g1._nodes with
    | none => (g1, some PyErr.keyError)
    | some n =>
      let g2 : Graph :=
        { g1 with _nodes := dset g1._nodes e.source_node.id (n.withEdges (n.connected_edges ++ [e])) }
      if e.is_bidirectional then
        match dlookup e.destination_node.id g2._nodes with
        | none => (g2, some PyErr.keyError)
        | some m =>
          addEdgesLoop
            { g2 with _nodes := dset g2._nodes e.destination_node.id (m.withEdges (m.connected_edges ++ [e])) }
            rest
      else addEdgesLoop g2 rest

/-- Method `Graph.add_edges`: runs the insertion loop only when
`not self.check_edge_exist(*edges)`; the second component records a raised
exception (with the partially mutated state in the first component). -/
def Graph.add_edges (g : Graph) (edges : List Edge) : Graph × Option PyErr :=
  if !(g.check_edge_exist edges) then addEdgesLoop g edges else (g, none)

/-- Default value of parameter `edge_id` of `create_edge`: as for `create_node`,
a single `uuid.uuid4()` value evaluated once at function-definition time. -/
def create_edge_default_id : Ident := Ident.uuid 1

/-- Method `Graph.create_edge`: builds an `Edge` record and delegates to
`add_edges`. -/
def Graph.create_edge (g : Graph) (source_node destination_node : Node) (edge_id : Ident)
    (is_bidirectional : Bool) (weighted_value : Int) : Graph × Option PyErr :=
  g.add_edges [Edge.mk edge_id source_node destination_node is_bidirectional weighted_value]

/-- Call `g.create_edge(s, d)` with the identifier argument defaulted. -/
def Graph.create_edge_defaulted (g : Graph) (source_node destination_node : Node) :
    Graph × Option PyErr :=
  g.create_edge source_node destination_node create_edge_default_id false 0

/-- Python `list.remove(e)`: drops the first element structurally equal to `e`;
`none` models the `ValueError` raised when no element matches. -/
def pyListRemove (l : List Edge) (e : Edge) : Option (List Edge) :=
  match l with
  | [] => none
  | x :: rest => if x = e then some rest else (pyListRemove rest e).map (fun t => x :: t)

/-- Loop body of `Graph.remove_edges`.  For each edge: remove it from the source
node's adjacency list (`KeyError` when the source id is absent, `ValueError`
when the edge is not in the list), likewise for the destination when
bidirectional, then `del self._edges[edge.id]`. -/
def removeEdgesLoop (g : Graph) : List Edge → Graph × Option PyErr
  | [] => (g, none)
  | e :: rest =>
    match dlookup e.source_node.id g._nodes with
    | none => (g, some PyErr.keyError)
    | some n =>
      match pyListRemove n.connected_edges e with
      | none => (g, some PyErr.valueError)
      | some l1 =>
        let g1 : Graph := { g with _nodes := dset g._nodes e.source_node.id (n.withEdges l1) }
        if e.is_bidirectional then
          match dlookup e.destination_node.id g1._nodes with
          | none => (g1, some PyErr.keyError)
          | some m =>
            match pyListRemove m.connected_edges e with
            | none => (g1, some PyErr.valueError)
            | some l2 =>
              let g2 : Graph :=
                { g1 with _nodes := dset g1._nodes e.destination_node.id (m.withEdges l2) }
              if dcontains e.id g2._edges then
                removeEdgesLoop { g2 with _edges := ddel g2._edges e.id } rest
              else (g2, some PyErr.keyError)
        else
          if dcontains e.id g1._edges then
            removeEdgesLoop { g1 with _edges := ddel g1._edges e.id } rest
          else (g1, some PyErr.keyError)

/-- Method `Graph.remove_edges`: runs the removal loop only when
`self.check_edge_exist(*edges)` holds for the whole batch. -/
def Graph.remove_edges (g : Graph) (edges : List Edge) : Graph × Option PyErr :=
  if g.check_edge_exist edges then removeEdgesLoop g edges else (g, none)

/-- Method `Graph.list_edges`: the values of the edge table in order. -/
def Graph.list_edges (g : Graph) : List Edge :=
  g._edges.map Prod.snd

/-- Method `Graph.get_edge_by_id`: `None` when the id is not a key of the edge
table, else the stored edge (deep-copied when `get_copy` is true). -/
def Graph.get_edge_by_id (g : Graph) (edge_id : Ident) (get_copy : Bool) : Option Edge :=
  match dlookup edge_id g._edges with
  | some e => some (if get_copy then deepcopyEdge e else e)
  | none => none

/- Lemmas about the dictionary model. -/

/- Lemmas about the dictionary model. -/

/- Lemmas about the dictionary model. -/

section DictLemmas

variable {κ α : Type} [DecidableEq κ]

theorem dlookup_cons_self (k : κ) (v : α) (d : List (κ × α)) :
    dlookup k ((k, v) :: d) = some v := by
  unfold dlookup
  exact if_pos rfl

theorem dlookup_cons_ne {k k' : κ} (v : α) (d : List (κ × α)) (h : k ≠ k') :
    dlookup k ((k', v) :: d) = dlookup k d := by
  have hstep : dlookup k ((k', v) :: d) = if k = k' then some v else dlookup k d := rfl
  rw [hstep]
  exact if_neg h

theorem set_fun_hit (k : κ) (v v0 : α) :
    (if ((k, v0) : κ × α).1 = k then ((k, v) : κ × α) else (k, v0)) = (k, v) :=
  if_pos rfl

theorem set_fun_miss {k0 k : κ} (v v0 : α) (h : k0 ≠ k) :
    (if ((k0, v0) : κ × α).1 = k then ((k, v) : κ × α) else (k0, v0)) = (k0, v0) :=
  if_neg h

theorem dlookup_eq_none {k : κ} {d : List (κ × α)} :
    dlookup k d = none ↔ ∀ p ∈ d, p.1 ≠ k := by
  induction d with
  | nil => simp [dlookup]
  | cons p rest ih =>
    obtain ⟨k', v⟩ := p
    by_cases h : k = k'
    · cases h
      rw [dlookup_cons_self]
      simp
    · rw [dlookup_cons_ne v rest h]
      simp only [List.mem_cons, forall_eq_or_imp, ih]
      have : ((k', v) : κ × α).1 ≠ k := fun hh => h hh.symm
      simp [this]

theorem dlookup_append_of_none {d l : List (κ × α)} {k : κ} (h : dlookup k d = none) :
    dlookup k (d ++ l) = dlookup k l := by
  induction d with
  | nil => rfl
  | cons p rest ih =>
    obtain ⟨k0, v0⟩ := p
    by_cases hk : k = k0
    · cases hk
      rw [dlookup_cons_self] at h
      cases h
    · rw [dlookup_cons_ne v0 rest hk] at h
      rw [List.cons_append, dlookup_cons_ne v0 (rest ++ l) hk]
      exact ih h

theorem dlookup_append_of_some {d l : List (κ × α)} {k : κ} {v : α}
    (h : dlookup k d = some v) : dlookup k (d ++ l) = some v := by
  induction d with
  | nil => cases h
  | cons p rest ih =>
    obtain ⟨k0, v0⟩ := p
    by_cases hk : k = k0
    · cases hk
      rw [dlookup_cons_self] at h
      rw [List.cons_append, dlookup_cons_self]
      exact h
    · rw [dlookup_cons_ne v0 rest hk] at h
      rw [List.cons_append, dlookup_cons_ne v0 (rest ++ l) hk]
      exact ih h

theorem dlookup_map_set_self {d : List (κ × α)} {k : κ} (v : α)
    (h : (dlookup k d).isSome = true) :
    dlookup k (d.map (fun p => if p.1 = k then (k, v) else p)) = some v := by
  induction d with
  | nil => simp [dlookup] at h
  | cons p rest ih =>
    obtain ⟨k0, v0⟩ := p
    simp only [List.map_cons]
    by_cases hk : k = k0
    · cases hk
      rw [set_fun_hit k v v0, dlookup_cons_self]
    · rw [set_fun_miss v v0 (fun hh => hk hh.symm)]
      rw [dlookup_cons_ne v0 rest hk] at h
      rw [dlookup_cons_ne v0 _ hk]
      exact ih h

theorem dlookup_map_set_ne {d : List (κ × α)} {k k' : κ} (v : α) (h : k' ≠ k) :
    dlookup k' (d.map (fun p => if p.1 = k then (k, v) else p)) = dlookup k' d := by
  induction d with
  | nil => rfl
  | cons p rest ih =>
    obtain ⟨k0, v0⟩ := p
    simp only [List.map_cons]
    by_cases hk : k0 = k
    · cases hk
      rw [set_fun_hit k v v0]
      rw [dlookup_cons_ne v _ h, dlookup_cons_ne v0 rest h]
      exact ih
    · rw [set_fun_miss v v0 hk]
      by_cases hk' : k' = k0
      · cases hk'
        rw [dlookup_cons_self, dlookup_cons_self]
      · rw [dlookup_cons_ne v0 _ hk', dlookup_cons_ne v0 rest hk']
        exact ih

theorem map_set_of_absent {d : List (κ × α)} {k : κ} (v : α) (h : dlookup k d = none) :
    d.map (fun p => if p.1 = k then (k, v) else p) = d := by
  have hmem := dlookup_eq_none.mp h
  have h2 : d.map (fun p => if p.1 = k then (k, v) else p) = d.map id :=
    List.map_congr_left (fun p hp => by simp [hmem p hp])
  rw [h2, List.map_id]

theorem dset_of_contains {d : List (κ × α)} {k : κ} (v : α) (hc : dcontains k d = true) :
    dset d k v = d.map (fun p => if p.1 = k then (k, v) else p) := by
  unfold dset
  exact if_pos hc

theorem dset_fresh {d : List (κ × α)} {k : κ} (v : α) (h : dlookup k d = none) :
    dset d k v = d ++ [(k, v)] := by
  unfold dset dcontains
  simp [h]

theorem dlookup_dset_self (d : List (κ × α)) (k : κ) (v : α) :
    dlookup k (dset d k v) = some v := by
  by_cases h : dcontains k d = true
  · rw [dset_of_contains v h]
    exact dlookup_map_set_self v h
  · have hn : dlookup k d = none := by
      unfold dcontains at h
      exact Option.not_isSome_iff_eq_none.mp (by simpa using h)
    rw [dset_fresh v hn, dlookup_append_of_none hn, dlookup_cons_self]

theorem dlookup_dset_ne (d : List (κ × α)) {k k' : κ} (v : α) (h : k' ≠ k) :
    dlookup k' (dset d k v) = dlookup k' d := by
  by_cases hc : dcontains k d = true
  · rw [dset_of_contains v hc]
    exact dlookup_map_set_ne v h
  · have hn : dlookup k d = none := by
      unfold dcontains at hc
      exact Option.not_isSome_iff_eq_none.mp (by simpa using hc)
    rw [dset_fresh v hn]
    cases hv : dlookup k' d with
    | some w => rw [dlookup_append_of_some hv]
    | none =>
      rw [dlookup_append_of_none hv, dlookup_cons_ne v [] h]
      rfl

theorem dcontains_dset_self (d : List (κ × α)) (k : κ) (v : α) :
    dcontains k (dset d k v) = true := by
  unfold dcontains
  rw [dlookup_dset_self]
  rfl

theorem ddel_append_fresh {d : List (κ × α)} {k : κ} (v : α) (h : dlookup k d = none) :
    ddel (d ++ [(k, v)]) k = d := by
  unfold ddel
  rw [List.filter_append]
  rw [dlookup_eq_none] at h
  have h1 : List.filter (fun p => decide (p.1 ≠ k)) d = d :=
    List.filter_eq_self.mpr (fun p hp => by simpa using h p hp)
  have h2 : List.filter (fun p : κ × α => decide (p.1 ≠ k)) [(k, v)] = [] := by
    simp
  rw [h1, h2, List.append_nil]

theorem dlookup_ddel_self (d : List (κ × α)) (k : κ) :
    dlookup k (ddel d k) = none := by
  rw [dlookup_eq_none]
  intro p hp
  have := List.of_mem_filter hp
  simpa using this

theorem dlookup_ddel_ne (d : List (κ × α)) {k k' : κ} (h : k' ≠ k) :
    dlookup k' (ddel d k) = dlookup k' d := by
  induction d with
  | nil => rfl
  | cons p rest ih =>
    obtain ⟨k0, v0⟩ := p
    by_cases hk : k0 = k
    · cases hk
      have hstep : ddel ((k, v0) :: rest) k = ddel rest k := by
        simp [ddel, List.filter_cons]
      rw [hstep, dlookup_cons_ne v0 rest h]
      exact ih
    · have hstep : ddel ((k0, v0) :: rest) k = (k0, v0) :: ddel rest k := by
        simp [ddel, List.filter_cons, hk]
      rw [hstep]
      by_cases hk' : k' = k0
      · cases hk'
        rw [dlookup_cons_self, dlookup_cons_self]
      · rw [dlookup_cons_ne v0 _ hk', dlookup_cons_ne v0 rest hk']
        exact ih

theorem dset_dset_same (d : List (κ × α)) (k : κ) (v v' : α) :
    dset (dset d k v') k v = dset d k v := by
  by_cases hc : dcontains k d = true
  · have hc' : dcontains k (dset d k v') = true := dcontains_dset_self d k v'
    rw [dset_of_contains v hc', dset_of_contains v' hc, List.map_map]
    rw [dset_of_contains v hc]
    apply List.map_congr_left
    intro p _
    obtain ⟨p1, p2⟩ := p
    by_cases hp : p1 = k
    · subst hp
      rw [Function.comp_apply, set_fun_hit p1 v' p2, set_fun_hit p1 v v', set_fun_hit p1 v p2]
    · rw [Function.comp_apply, set_fun_miss v' p2 hp, set_fun_miss v p2 hp]
  · have hn : dlookup k d = none := by
      unfold dcontains at hc
      exact Option.not_isSome_iff_eq_none.mp (by simpa using hc)
    have hc' : dcontains k (d ++ [(k, v')]) = true := by
      unfold dcontains
      rw [dlookup_append_of_none hn, dlookup_cons_self]
      rfl
    have hlast : List.map (fun p => if p.1 = k then ((k, v) : κ × α) else p) [(k, v')] = [(k, v)] := by
      rw [List.map_cons, List.map_nil]
      congr 1
      exact set_fun_hit k v v'
    rw [dset_fresh v' hn, dset_of_contains v hc', List.map_append, map_set_of_absent v hn, hlast]
    rw [dset_fresh v hn]

theorem dset_eq_self {d : List (κ × α)} {k : κ} {v : α}
    (hnodup : (d.map Prod.fst).Nodup) (h : dlookup k d = some v) :
    dset d k v = d := by
  have hc : dcontains k d = true := by
    unfold dcontains
    rw [h]
    rfl
  rw [dset_of_contains v hc]
  clear hc
  induction d with
  | nil => cases h
  | cons p rest ih =>
    obtain ⟨k0, v0⟩ := p
    simp only [List.map_cons, List.nodup_cons] at hnodup
    by_cases hk : k = k0
    · cases hk
      rw [dlookup_cons_self] at h
      cases h
      have habs : dlookup k rest = none := by
        rw [dlookup_eq_none]
        intro q hq hq1
        exact hnodup.1 (hq1 ▸ List.mem_map_of_mem Prod.fst hq)
      simp only [List.map_cons]
      rw [map_set_of_absent v habs]
      simp
    · rw [dlookup_cons_ne v0 rest hk] at h
      simp only [List.map_cons]
      rw [set_fun_miss v v0 (fun hh => hk hh.symm)]
      rw [ih hnodup.2 h]

end DictLemmas

/- Lemmas about the graph operations. -/

mutual

theorem deepcopyNode_eq : (n : Node) → deepcopyNode n = n
  | .mk i es p => by
    rw [show deepcopyNode (.mk i es p) = .mk i (deepcopyEdgeList es) p from rfl]
    rw [deepcopyEdgeList_eq es]

theorem deepcopyEdgeList_eq : (l : List Edge) → deepcopyEdgeList l = l
  | [] => rfl
  | e :: r => by
    rw [show deepcopyEdgeList (e :: r) = deepcopyEdge e :: deepcopyEdgeList r from rfl]
    rw [deepcopyEdge_eq e, deepcopyEdgeList_eq r]

theorem deepcopyEdge_eq : (e : Edge) → deepcopyEdge e = e
  | .mk i s d b w => by
    rw [show deepcopyEdge (.mk i s d b w) = .mk i (deepcopyNode s) (deepcopyNode d) b w from rfl]
    rw [deepcopyNode_eq s, deepcopyNode_eq d]

end

theorem check_node_exist_iff (g : Graph) (ns : List Node) :
    g.check_node_exist ns = true ↔ ∀ n ∈ ns, dcontains n.id g._nodes = true := by
  induction ns with
  | nil => simp [Graph.check_node_exist]
  | cons n rest ih =>
    by_cases h : dcontains n.id g._nodes = true
    · simp [Graph.check_node_exist, h, ih]
    · simp only [Graph.check_node_exist, if_neg h]
      constructor
      · intro hfalse
        cases hfalse
      · intro hall
        exact absurd (hall n (List.mem_cons_self n rest)) h

theorem check_edge_exist_iff (g : Graph) (es : List Edge) :
    g.check_edge_exist es = true ↔ ∀ e ∈ es, dcontains e.id g._edges = true := by
  induction es with
  | nil => simp [Graph.check_edge_exist]
  | cons e rest ih =>
    by_cases h : dcontains e.id g._edges = true
    · simp [Graph.check_edge_exist, h, ih]
    · simp only [Graph.check_edge_exist, if_neg h]
      constructor
      · intro hfalse
        cases hfalse
      · intro hall
        exact absurd (hall e (List.mem_cons_self e rest)) h

theorem dlookup_ddel_none {κ α : Type} [DecidableEq κ] (d : List (κ × α)) (k k' : κ)
    (h : dlookup k d = none) : dlookup k (ddel d k') = none := by
  by_cases hk : k = k'
  · cases hk
    exact dlookup_ddel_self d k
  · rw [dlookup_ddel_ne d hk]
    exact h

theorem dlookup_removeNodesLoop_notin (ns : List Node) (d : List (Ident × Node)) (k : Ident)
    (h : ∀ n ∈ ns, n.id ≠ k) :
    dlookup k (removeNodesLoop d ns) = dlookup k d := by
  induction ns generalizing d with
  | nil => rfl
  | cons n rest ih =>
    rw [show removeNodesLoop d (n :: rest)
        = removeNodesLoop (if dcontains n.id d then ddel d n.id else d) rest from rfl]
    rw [ih _ (fun m hm => h m (List.mem_cons_of_mem n hm))]
    by_cases hc : dcontains n.id d = true
    · rw [if_pos hc]
      exact dlookup_ddel_ne d (fun hh => h n (List.mem_cons_self n rest) hh.symm)
    · rw [if_neg hc]

theorem dlookup_removeNodesLoop_none (ns : List Node) (d : List (Ident × Node)) (k : Ident)
    (h : dlookup k d = none) :
    dlookup k (removeNodesLoop d ns) = none := by
  induction ns generalizing d with
  | nil => exact h
  | cons n rest ih =>
    rw [show removeNodesLoop d (n :: rest)
        = removeNodesLoop (if dcontains n.id d then ddel d n.id else d) rest from rfl]
    apply ih
    by_cases hc : dcontains n.id d = true
    · rw [if_pos hc]
      exact dlookup_ddel_none d k n.id h
    · rw [if_neg hc]
      exact h

theorem dlookup_removeNodesLoop_mem (ns : List Node) (d : List (Ident × Node)) (n : Node)
    (hn : n ∈ ns) :
    dlookup n.id (removeNodesLoop d ns) = none := by
  induction ns generalizing d with
  | nil => cases hn
  | cons m rest ih =>
    rw [show removeNodesLoop d (m :: rest)
        = removeNodesLoop (if dcontains m.id d then ddel d m.id else d) rest from rfl]
    rcases List.mem_cons.mp hn with hm | hm
    · cases hm
      apply dlookup_removeNodesLoop_none
      by_cases hc : dcontains n.id d = true
      · rw [if_pos hc]
        exact dlookup_ddel_self d n.id
      · rw [if_neg hc]
        unfold dcontains at hc
        exact Option.not_isSome_iff_eq_none.mp (by simpa using hc)
    · exact ih _ hm

theorem connected_edges_withEdges (n : Node) (l : List Edge) :
    (n.withEdges l).connected_edges = l := by
  cases n
  rfl

theorem withEdges_withEdges (n : Node) (l l' : List Edge) :
    (n.withEdges l).withEdges l' = n.withEdges l' := by
  cases n
  rfl

theorem withEdges_self (n : Node) : n.withEdges n.connected_edges = n := by
  cases n
  rfl

theorem pyListRemove_append_self (l : List Edge) (e : Edge) (h : e ∉ l) :
    pyListRemove (l ++ [e]) e = some l := by
  induction l with
  | nil => simp [pyListRemove]
  | cons x r ih =>
    have hx : ¬(x = e) := fun hh => h (by rw [hh]; exact List.mem_cons_self e r)
    have hr : e ∉ r := fun hm => h (List.mem_cons_of_mem x hm)
    rw [List.cons_append]
    rw [show pyListRemove (x :: (r ++ [e])) e
        = if x = e then some (r ++ [e])
          else (pyListRemove (r ++ [e]) e).map (fun t => x :: t) from rfl]
    rw [if_neg hx, ih hr]
    rfl

/- Concrete fixtures used by witnesses and counterexamples. -/

def nA : Node := .mk (.str ("A")) [] none

def nA' : Node := .mk (.str ("A")) [] (some ("x"))

def nB : Node := .mk (.str ("B")) [] none

def nC : Node := .mk (.str ("C")) [] none

def gA : Graph := Graph.init.add_nodes [nA]

def gAB : Graph := Graph.init.add_nodes [nA, nB]

def eAB : Edge := .mk (.str ("E")) nA nB false 0

def gABE : Graph := (gAB.add_edges [eAB]).1

/- Claim C1. -/

/-- C1 (counterexample): the claim says that a batch containing one id that is
already present is rejected wholesale; in the code the gate is
`not check_node_exist(...)`, which is TRUE as soon as one id is absent, so
`add_nodes(existingA, freshB)` mutates the node table. -/
theorem claim1_counterexample :
    dcontains nA'.id gA._nodes = true ∧ (gA.add_nodes [nA', nB])._nodes ≠ gA._nodes := by
  decide

/-- C1 (amended): a batch passed to `add_nodes`/`add_edges` is silently rejected
(tables and adjacency lists exactly as before, no error raised) when EVERY
supplied item's id already exists in the corresponding table — the gate is
`not check_*_exist(...)`, i.e. "not all present", not "some present", so a
batch containing a fresh id is not rejected (it proceeds to the insertion
loop; what that loop then does is outside this claim). -/
theorem claim1_amended_all_exist_rejects (g : Graph) (ns : List Node) (es : List Edge)
    (hn : ∀ n ∈ ns, dcontains n.id g._nodes = true)
    (he : ∀ e ∈ es, dcontains e.id g._edges = true) :
    g.add_nodes ns = g ∧ g.add_edges es = (g, none) := by
  constructor
  · unfold Graph.add_nodes
    rw [(check_node_exist_iff g ns).mpr hn]
    simp
  · unfold Graph.add_edges
    rw [(check_edge_exist_iff g es).mpr he]
    simp

/-- C1 (witness): a concrete graph where both rejection branches fire. -/
theorem claim1_amended_witness :
    gABE.add_nodes [nA] = gABE ∧ gABE.add_edges [eAB] = (gABE, none) :=
  claim1_amended_all_exist_rejects gABE [nA] [eAB] (by decide) (by decide)

/- Claim C3. -/

/-- C3 (code-bug exhibit): the `uuid.uuid4()` defaults of `create_node` and
`create_edge` are evaluated once, at function-definition time, so every
defaulted call shares one identifier.  Two defaulted `create_node` calls on an
empty graph leave a single node (the second silently collides and is dropped),
and two defaulted `create_edge` calls between existing nodes leave a single
edge. -/
theorem claim3_default_id_collision :
    Graph.init.create_node_defaulted.create_node_defaulted
      = Graph.init.create_node_defaulted ∧
    Graph.init.create_node_defaulted._nodes.length = 1 ∧
    ((gAB.create_edge_defaulted nA nB).1.create_edge_defaulted nA nB)
      = ((gAB.create_edge_defaulted nA nB).1, none) ∧
    (gAB.create_edge_defaulted nA nB).1._edges.length = 1 := by
  decide

/- Claim C7. -/

/-- C7: when every id of the batch exists, `remove_node` deletes exactly the
named entries from the node table and changes nothing else (the edge table and
every surviving node's record, hence its `connected_edges`, are untouched);
when some id is absent, the whole call is a no-op. -/
theorem claim7_remove_node_frame (g : Graph) (ns : List Node) :
    ((∀ n ∈ ns, dcontains n.id g._nodes = true) →
      (g.remove_node ns)._edges = g._edges ∧
      (∀ n ∈ ns, dlookup n.id (g.remove_node ns)._nodes = none) ∧
      (∀ k : Ident, (∀ n ∈ ns, n.id ≠ k) →
        dlookup k (g.remove_node ns)._nodes = dlookup k g._nodes)) ∧
    ((∃ n ∈ ns, dcontains n.id g._nodes = false) → g.remove_node ns = g) := by
  constructor
  · intro hall
    unfold Graph.remove_node
    rw [(check_node_exist_iff g ns).mpr hall]
    rw [if_pos (show (true : Bool) = true from rfl)]
    refine ⟨rfl, ?_, ?_⟩
    · intro n hn
      exact dlookup_removeNodesLoop_mem ns g._nodes n hn
    · intro k hk
      exact dlookup_removeNodesLoop_notin ns g._nodes k hk
  · rintro ⟨n, hn, habs⟩
    unfold Graph.remove_node
    cases hcheck : g.check_node_exist ns with
    | true =>
      have := (check_node_exist_iff g ns).mp hcheck n hn
      rw [this] at habs
      cases habs
    | false => rw [if_neg (by simp)]

/-- C7 (witness): removing node A from the two-node-one-edge graph keeps the
edge table and node B intact; removing an absent node is a no-op. -/
theorem claim7_witness :
    (gABE.remove_node [nA])._edges = gABE._edges ∧
    dlookup nA.id (gABE.remove_node [nA])._nodes = none ∧
    dlookup nB.id (gABE.remove_node [nA])._nodes = dlookup nB.id gABE._nodes ∧
    gABE.remove_node [nC] = gABE :=
  ⟨((claim7_remove_node_frame gABE [nA]).1 (by decide)).1,
   ((claim7_remove_node_frame gABE [nA]).1 (by decide)).2.1 nA (by decide),
   ((claim7_remove_node_frame gABE [nA]).1 (by decide)).2.2 nB.id (by decide),
   (claim7_remove_node_frame gABE [nC]).2 ⟨nC, by decide, by decide⟩⟩

/- Claim C8. -/

/-- C8: a `create_node` call with a fresh id and arbitrary `initial_edges`
always succeeds: the new node's adjacency list is exactly the supplied list,
the edge table is untouched (the supplied edges are NOT registered), and no
other node is modified (no endpoint check, no destination-side mirroring) —
the conclusion holds for every `initial_edges` value, which is the formal
statement that no endpoint existence check is performed for them. -/
theorem claim8_create_node_initial_edges (g : Graph) (i : Ident) (es : List Edge)
    (p : Option String) (_hne : es ≠ []) (habs : dlookup i g._nodes = none) :
    (g.create_node i es p)._edges = g._edges ∧
    dlookup i (g.create_node i es p)._nodes = some (Node.mk i es p) ∧
    ∀ k, k ≠ i → dlookup k (g.create_node i es p)._nodes = dlookup k g._nodes := by
  unfold Graph.create_node Graph.add_nodes
  have hcheck : g.check_node_exist [Node.mk i es p] = false := by
    unfold Graph.check_node_exist dcontains
    rw [show (Node.mk i es p).id = i from rfl, habs]
    rfl
  rw [hcheck]
  rw [if_pos (show (!false) = true from rfl)]
  refine ⟨rfl, ?_, ?_⟩
  · rw [show addNodesLoop g._nodes [Node.mk i es p]
        = dset g._nodes i (Node.mk i es p) from rfl]
    exact dlookup_dset_self g._nodes i (Node.mk i es p)
  · intro k hk
    rw [show addNodesLoop g._nodes [Node.mk i es p]
        = dset g._nodes i (Node.mk i es p) from rfl]
    exact dlookup_dset_ne g._nodes (Node.mk i es p) hk

/-- C8 (witness): creating a node with a dangling initial edge attaches the
edge to the new node only. -/
theorem claim8_witness :
    (gAB.create_node (Ident.str ("D")) [eAB] none)._edges = gAB._edges ∧
    dlookup (Ident.str ("D")) (gAB.create_node (Ident.str ("D")) [eAB] none)._nodes
      = some (Node.mk (Ident.str ("D")) [eAB] none) ∧
    dlookup nA.id (gAB.create_node (Ident.str ("D")) [eAB] none)._nodes
      = dlookup nA.id gAB._nodes :=
  ⟨(claim8_create_node_initial_edges gAB (Ident.str ("D")) [eAB] none (by decide) (by decide)).1,
   (claim8_create_node_initial_edges gAB (Ident.str ("D")) [eAB] none (by decide) (by decide)).2.1,
   (claim8_create_node_initial_edges gAB (Ident.str ("D")) [eAB] none (by decide) (by decide)).2.2
     nA.id (by decide)⟩

/- Claim C9. -/

/-- C9: the lookups `get_node_by_id`/`get_edge_by_id` never raise: they return
`none` exactly when the identifier is absent, and the stored record (the deep
copy being value-equal) when it is present, for either value of `get_copy`. -/
theorem claim9_get_by_id_total (g : Graph) (i : Ident) (c : Bool) :
    (dlookup i g._nodes = none → g.get_node_by_id i c = none) ∧
    (∀ n, dlookup i g._nodes = some n → g.get_node_by_id i c = some n) ∧
    (dlookup i g._edges = none → g.get_edge_by_id i c = none) ∧
    (∀ e, dlookup i g._edges = some e → g.get_edge_by_id i c = some e) := by
  refine ⟨?_, ?_, ?_, ?_⟩
  · intro h
    unfold Graph.get_node_by_id
    rw [h]
  · intro n h
    unfold Graph.get_node_by_id
    rw [h]
    cases c <;> simp [deepcopyNode_eq]
  · intro h
    unfold Graph.get_edge_by_id
    rw [h]
  · intro e h
    unfold Graph.get_edge_by_id
    rw [h]
    cases c <;> simp [deepcopyEdge_eq]

/-- C9 (witness): concrete absent and present lookups on the demo graph. -/
theorem claim9_witness :
    gABE.get_node_by_id (Ident.str ("Z")) true = none ∧
    gABE.get_node_by_id (Ident.str ("A")) true = some (Node.mk (Ident.str ("A")) [eAB] none) ∧
    gABE.get_edge_by_id (Ident.str ("Z")) false = none ∧
    gABE.get_edge_by_id (Ident.str ("E")) true = some eAB :=
  ⟨(claim9_get_by_id_total gABE (Ident.str ("Z")) true).1 (by decide),
   (claim9_get_by_id_total gABE (Ident.str ("A")) true).2.1 _ (by decide),
   (claim9_get_by_id_total gABE (Ident.str ("Z")) false).2.2.1 (by decide),
   (claim9_get_by_id_total gABE (Ident.str ("E")) true).2.2.2 _ (by decide)⟩

/- Claim C2. -/

/-- C2 (counterexample): both halves of the claim fail.  Adding an edge whose
source node id is absent does raise a `KeyError`, but the "edge table
unchanged / no entry for the new edge id" part is false:
`self._edges[edge.id] = edge` runs BEFORE the failing node-table subscript, so
the edge is left in the edge table.  And the "fails with an explicit error"
part is false for a UNIDIRECTIONAL edge whose destination id is absent: the
destination is never subscripted, so the edge is added silently, completely
and without any error. -/
theorem claim2_counterexample :
    (dlookup (Edge.mk (.str ("F")) nB nA false 0).source_node.id gA._nodes = none ∧
     (gA.add_edges [Edge.mk (.str ("F")) nB nA false 0]).2 = some PyErr.keyError ∧
     dlookup (Ident.str ("F")) (gA.add_edges [Edge.mk (.str ("F")) nB nA false 0]).1._edges
       = some (Edge.mk (.str ("F")) nB nA false 0)) ∧
    (dlookup (Edge.mk (.str ("G")) nA nC false 0).destination_node.id gAB._nodes = none ∧
     (gAB.add_edges [Edge.mk (.str ("G")) nA nC false 0]).2 = none ∧
     dlookup (Ident.str ("G")) (gAB.add_edges [Edge.mk (.str ("G")) nA nC false 0]).1._edges
       = some (Edge.mk (.str ("G")) nA nC false 0)) := by
  decide

/-- C2 (amended): adding a fresh edge raises an explicit `KeyError` only when
the code actually subscripts the node table with a missing id — when the
SOURCE id is absent, or when the DESTINATION id of a BIDIRECTIONAL edge is
absent; in those cases the node-table keys are untouched, but the edge has
already been inserted into the edge table when the error is raised (and, in
the bidirectional case, the source's adjacency list has already been
appended).  A UNIDIRECTIONAL edge whose destination id is absent is added
silently and completely, with no error and no destination check at all. -/
theorem claim2_amended_missing_endpoint (g : Graph) (e : Edge)
    (hfresh : dlookup e.id g._edges = none) :
    (dlookup e.source_node.id g._nodes = none →
      g.add_edges [e] = ({ g with _edges := dset g._edges e.id e }, some PyErr.keyError)) ∧
    (∀ n, dlookup e.source_node.id g._nodes = some n → e.is_bidirectional = true →
      e.destination_node.id ≠ e.source_node.id →
      dlookup e.destination_node.id g._nodes = none →
      g.add_edges [e] =
        ({ _nodes := dset g._nodes e.source_node.id (n.withEdges (n.connected_edges ++ [e])),
           _edges := dset g._edges e.id e }, some PyErr.keyError)) ∧
    (∀ n, dlookup e.source_node.id g._nodes = some n → e.is_bidirectional = false →
      dlookup e.destination_node.id g._nodes = none →
      g.add_edges [e] =
        ({ _nodes := dset g._nodes e.source_node.id (n.withEdges (n.connected_edges ++ [e])),
           _edges := dset g._edges e.id e }, none)) := by
  have hcheck : g.check_edge_exist [e] = false := by
    unfold Graph.check_edge_exist dcontains
    rw [hfresh]
    rfl
  refine ⟨?_, ?_, ?_⟩
  · intro hsrc
    unfold Graph.add_edges
    rw [hcheck, if_pos (show (!false) = true from rfl)]
    unfold addEdgesLoop
    simp only [hsrc]
  · intro n hsrc hbid hne hdst
    have hdst2 : dlookup e.destination_node.id
        (dset g._nodes e.source_node.id (n.withEdges (n.connected_edges ++ [e]))) = none := by
      rw [dlookup_dset_ne g._nodes _ hne]
      exact hdst
    unfold Graph.add_edges
    rw [hcheck, if_pos (show (!false) = true from rfl)]
    unfold addEdgesLoop
    simp only [hsrc, hbid, hdst2, if_true]
  · intro n hsrc hbid _hdst
    unfold Graph.add_edges
    rw [hcheck, if_pos (show (!false) = true from rfl)]
    unfold addEdgesLoop
    simp only [hsrc, hbid]
    rfl

/-- C2 (witness): the source-missing error branch and the silent
destination-missing unidirectional branch, each at a concrete input. -/
theorem claim2_witness :
    gA.add_edges [Edge.mk (.str ("F")) nB nA false 0]
      = ({ gA with
            _edges := dset gA._edges (Edge.mk (.str ("F")) nB nA false 0).id
              (Edge.mk (.str ("F")) nB nA false 0) }, some PyErr.keyError) ∧
    gAB.add_edges [Edge.mk (.str ("G")) nA nC false 0]
      = ({ _nodes := dset gAB._nodes (Edge.mk (.str ("G")) nA nC false 0).source_node.id
             (nA.withEdges (nA.connected_edges ++ [Edge.mk (.str ("G")) nA nC false 0])),
           _edges := dset gAB._edges (Edge.mk (.str ("G")) nA nC false 0).id
             (Edge.mk (.str ("G")) nA nC false 0) }, none) :=
  ⟨(claim2_amended_missing_endpoint gA (Edge.mk (.str ("F")) nB nA false 0) (by decide)).1
     (by decide),
   (claim2_amended_missing_endpoint gAB (Edge.mk (.str ("G")) nA nC false 0) (by decide)).2.2
     nA (by decide) (by decide) (by decide)⟩

/- Claim C4. -/

/-- C4 (counterexample): a bidirectional self-loop between a present node and
itself is appended TWICE to that node's adjacency list, not "exactly once in
the source's and exactly once in the destination's". -/
theorem claim4_counterexample :
    dlookup (Ident.str ("A")) gA._nodes ≠ none ∧
    dlookup (Ident.str ("L")) gA._edges = none ∧
    ((gA.add_edges [Edge.mk (.str ("L")) nA nA true 0]).1.get_node_by_id
        (Ident.str ("A")) false).map
      (fun n => n.connected_edges.count (Edge.mk (.str ("L")) nA nA true 0)) = some 2 := by
  decide

/-- C4 (amended): for a fresh accepted edge between present, DISTINCT endpoints
that does not already occur in either endpoint's adjacency list, the call
raises nothing and the edge ends up exactly once in the source's
`connected_edges` and exactly once (bidirectional) or not at all
(unidirectional) in the destination's; a bidirectional self-loop instead lands
twice in the single shared list. -/
theorem claim4_amended_mirroring (g : Graph) (e : Edge) (a b : Node)
    (hfresh : dlookup e.id g._edges = none)
    (hsrc : dlookup e.source_node.id g._nodes = some a)
    (hdst : dlookup e.destination_node.id g._nodes = some b)
    (hne : e.source_node.id ≠ e.destination_node.id)
    (hnotin_a : e ∉ a.connected_edges)
    (hnotin_b : e ∉ b.connected_edges) :
    (g.add_edges [e]).2 = none ∧
    ((g.add_edges [e]).1.get_node_by_id e.source_node.id false).map
      (fun n => n.connected_edges.count e) = some 1 ∧
    ((g.add_edges [e]).1.get_node_by_id e.destination_node.id false).map
      (fun n => n.connected_edges.count e)
      = some (if e.is_bidirectional then 1 else 0) := by
  have hcheck : g.check_edge_exist [e] = false := by
    unfold Graph.check_edge_exist dcontains
    rw [hfresh]
    rfl
  have hcount_a : (a.connected_edges ++ [e]).count e = 1 := by
    rw [List.count_append, List.count_eq_zero.mpr hnotin_a]
    simp
  have hcount_b : b.connected_edges.count e = 0 := List.count_eq_zero.mpr hnotin_b
  cases hbid : e.is_bidirectional with
  | false =>
    have hadd : g.add_edges [e]
        = ({ _nodes := dset g._nodes e.source_node.id
               (a.withEdges (a.connected_edges ++ [e])),
             _edges := dset g._edges e.id e }, none) := by
      unfold Graph.add_edges
      rw [hcheck, if_pos (show (!false) = true from rfl)]
      unfold addEdgesLoop
      simp only [hsrc, hbid]
      rfl
    rw [hadd]
    refine ⟨rfl, ?_, ?_⟩
    · unfold Graph.get_node_by_id
      rw [show dlookup e.source_node.id
            (dset g._nodes e.source_node.id (a.withEdges (a.connected_edges ++ [e])))
          = some (a.withEdges (a.connected_edges ++ [e]))
          from dlookup_dset_self g._nodes e.source_node.id _]
      simp [connected_edges_withEdges, hcount_a]
    · unfold Graph.get_node_by_id
      rw [show dlookup e.destination_node.id
            (dset g._nodes e.source_node.id (a.withEdges (a.connected_edges ++ [e])))
          = dlookup e.destination_node.id g._nodes
          from dlookup_dset_ne g._nodes _ (fun hh => hne hh.symm)]
      rw [hdst]
      simp [hcount_b]
  | true =>
    have hdst2 : dlookup e.destination_node.id
        (dset g._nodes e.source_node.id (a.withEdges (a.connected_edges ++ [e])))
        = some b := by
      rw [dlookup_dset_ne g._nodes _ (fun hh => hne hh.symm)]
      exact hdst
    have hadd : g.add_edges [e]
        = ({ _nodes := dset
               (dset g._nodes e.source_node.id (a.withEdges (a.connected_edges ++ [e])))
               e.destination_node.id (b.withEdges (b.connected_edges ++ [e])),
             _edges := dset g._edges e.id e }, none) := by
      unfold Graph.add_edges
      rw [hcheck, if_pos (show (!false) = true from rfl)]
      unfold addEdgesLoop
      simp only [hsrc, hbid, hdst2, if_true]
      rfl
    rw [hadd]
    refine ⟨rfl, ?_, ?_⟩
    · unfold Graph.get_node_by_id
      rw [show dlookup e.source_node.id
            (dset (dset g._nodes e.source_node.id (a.withEdges (a.connected_edges ++ [e])))
              e.destination_node.id (b.withEdges (b.connected_edges ++ [e])))
          = dlookup e.source_node.id
              (dset g._nodes e.source_node.id (a.withEdges (a.connected_edges ++ [e])))
          from dlookup_dset_ne _ _ hne]
      rw [dlookup_dset_self]
      simp [connected_edges_withEdges, hcount_a]
    · unfold Graph.get_node_by_id
      rw [dlookup_dset_self]
      have hcount : (b.connected_edges ++ [e]).count e = 1 := by
        rw [List.count_append, hcount_b]
        simp
      simp [connected_edges_withEdges, hcount]

/-- C4 (witness): a bidirectional edge between the two nodes of the concrete
graph lands once in each adjacency list. -/
theorem claim4_witness :
    (gAB.add_edges [Edge.mk (.str ("E2")) nA nB true 0]).2 = none ∧
    ((gAB.add_edges [Edge.mk (.str ("E2")) nA nB true 0]).1.get_node_by_id
        (Edge.mk (.str ("E2")) nA nB true 0).source_node.id false).map
      (fun n => n.connected_edges.count (Edge.mk (.str ("E2")) nA nB true 0)) = some 1 ∧
    ((gAB.add_edges [Edge.mk (.str ("E2")) nA nB true 0]).1.get_node_by_id
        (Edge.mk (.str ("E2")) nA nB true 0).destination_node.id false).map
      (fun n => n.connected_edges.count (Edge.mk (.str ("E2")) nA nB true 0))
      = some (if (Edge.mk (.str ("E2")) nA nB true 0).is_bidirectional then 1 else 0) :=
  claim4_amended_mirroring gAB (Edge.mk (.str ("E2")) nA nB true 0) nA nB
    (by decide) (by decide) (by decide) (by decide) (by decide) (by decide)

/- Claim C5. -/

/-- C5 (counterexample): when the freshly added edge already occurs (by value)
in the source's adjacency list — possible because `create_node` attaches
`initial_edges` without registering them — `list.remove` removes the FIRST
occurrence, so add-then-remove reorders the list instead of restoring it. -/
theorem claim5_counterexample :
    dlookup (Edge.mk (.str ("E1")) nA nB false 0).id
        ((Graph.init.add_nodes [nB]).create_node (Ident.str ("A"))
          [Edge.mk (.str ("E1")) nA nB false 0, Edge.mk (.str ("F1")) nA nB false 0]
          none)._edges = none ∧
    (((((Graph.init.add_nodes [nB]).create_node (Ident.str ("A"))
          [Edge.mk (.str ("E1")) nA nB false 0, Edge.mk (.str ("F1")) nA nB false 0]
          none).add_edges [Edge.mk (.str ("E1")) nA nB false 0]).1.remove_edges
        [Edge.mk (.str ("E1")) nA nB false 0]).1.get_node_by_id (Ident.str ("A")) false)
      ≠ (((Graph.init.add_nodes [nB]).create_node (Ident.str ("A"))
          [Edge.mk (.str ("E1")) nA nB false 0, Edge.mk (.str ("F1")) nA nB false 0]
          none).get_node_by_id (Ident.str ("A")) false) := by
  decide

/-- C5 (amended): for a fresh non-bidirectional edge between present endpoints
that does not already occur in the source's adjacency list, `remove_edges`
after `add_edges` restores the graph exactly (node table, adjacency lists and
edge table), raising nothing. -/
theorem claim5_amended_remove_inverts_add (g : Graph) (e : Edge) (a b : Node)
    (hnodup : (g._nodes.map Prod.fst).Nodup)
    (hfresh : dlookup e.id g._edges = none)
    (hsrc : dlookup e.source_node.id g._nodes = some a)
    (_hdst : dlookup e.destination_node.id g._nodes = some b)
    (hbid : e.is_bidirectional = false)
    (hnotin : e ∉ a.connected_edges) :
    (g.add_edges [e]).2 = none ∧ (g.add_edges [e]).1.remove_edges [e] = (g, none) := by
  have hcheck : g.check_edge_exist [e] = false := by
    unfold Graph.check_edge_exist dcontains
    rw [hfresh]
    rfl
  have hadd : g.add_edges [e]
      = ({ _nodes := dset g._nodes e.source_node.id
             (a.withEdges (a.connected_edges ++ [e])),
           _edges := dset g._edges e.id e }, none) := by
    unfold Graph.add_edges
    rw [hcheck, if_pos (show (!false) = true from rfl)]
    unfold addEdgesLoop
    simp only [hsrc, hbid]
    rfl
  refine ⟨by rw [hadd], ?_⟩
  rw [hadd]
  have hedges : dset g._edges e.id e = g._edges ++ [(e.id, e)] := dset_fresh e hfresh
  have hlook : dlookup e.id (dset g._edges e.id e) = some e := dlookup_dset_self _ _ _
  have hcheck2 : Graph.check_edge_exist
      ({ _nodes := dset g._nodes e.source_node.id (a.withEdges (a.connected_edges ++ [e])),
         _edges := dset g._edges e.id e } : Graph) [e] = true := by
    unfold Graph.check_edge_exist dcontains
    rw [hlook]
    rfl
  unfold Graph.remove_edges
  rw [hcheck2, if_pos (show (true : Bool) = true from rfl)]
  unfold removeEdgesLoop
  have hsrc2 : dlookup e.source_node.id
      (dset g._nodes e.source_node.id (a.withEdges (a.connected_edges ++ [e])))
      = some (a.withEdges (a.connected_edges ++ [e])) := dlookup_dset_self _ _ _
  have hrem : pyListRemove (a.withEdges (a.connected_edges ++ [e])).connected_edges e
      = some a.connected_edges := by
    rw [connected_edges_withEdges]
    exact pyListRemove_append_self a.connected_edges e hnotin
  have hnodes : dset (dset g._nodes e.source_node.id (a.withEdges (a.connected_edges ++ [e])))
      e.source_node.id ((a.withEdges (a.connected_edges ++ [e])).withEdges a.connected_edges)
      = g._nodes := by
    rw [withEdges_withEdges, withEdges_self]
    rw [dset_dset_same]
    exact dset_eq_self hnodup hsrc
  have hcont : dcontains e.id (dset g._edges e.id e) = true := dcontains_dset_self _ _ _
  simp only [hsrc2, hrem, hbid, hnodes, hcont, if_true]
  rw [hedges, ddel_append_fresh e hfresh]
  rw [if_neg (show ¬(false = true) from by simp)]
  rfl

/-- C5 (witness): add-then-remove of a fresh edge on the two-node graph is the
identity. -/
theorem claim5_witness :
    (gAB.add_edges [eAB]).2 = none ∧ (gAB.add_edges [eAB]).1.remove_edges [eAB] = (gAB, none) :=
  claim5_amended_remove_inverts_add gAB eAB nA nB
    (by decide) (by decide) (by decide) (by decide) (by decide) (by decide)

/- Claim C10. -/

/-- C10: with zero arguments both existence checks return `True` vacuously, so
an empty `add_nodes`/`add_edges` batch takes the rejected branch and an empty
`remove_node`/`remove_edges` batch passes the gate; all four leave the graph
unchanged and raise nothing. -/
theorem claim10_empty_batch (g : Graph) :
    g.check_node_exist [] = true ∧ g.check_edge_exist [] = true ∧
    g.add_nodes [] = g ∧ g.add_edges [] = (g, none) ∧
    g.remove_node [] = g ∧ g.remove_edges [] = (g, none) :=
  ⟨rfl, rfl, rfl, rfl, rfl, rfl⟩

/- Heap model for claim C6.

   Deep-copy independence (`get_node_by_id(id, get_copy=True)`) is a statement
   about Python OBJECT IDENTITY: mutating the returned object must not change
   the stored one.  The pure value model above cannot express mutation of a
   shared object, so this section models the same source code over an explicit
   heap: `Node` objects, `list` objects and `Edge` objects live at addresses,
   the graph's tables map identifiers to node/edge addresses, and
   `copy.deepcopy` is the standard memoised graph copy (a fresh address per
   reachable object, memo tables handling the `node → list → edge → node`
   cycles, fields filled in after the memo entry is created, exactly as
   CPython's `deepcopy` does).  Fuel bounds the recursion; the chosen fuel
   exceeds the number of objects plus the total list length of the heap, so it
   never runs out on an actual object graph, and the independence theorem below
   does not depend on the bound. -/

namespace HeapModel

abbrev Addr := Nat

/-- Heap-resident `Node` object: `connected_edges` is the address of the
adjacency-list object. -/
structure NodeObj where
  id : Ident
  connected_edges : Addr
  additional_parameters : Option String
deriving DecidableEq, Repr

/-- Heap-resident `Edge` object: endpoints are addresses of node objects. -/
structure EdgeObj where
  id : Ident
  source_node : Addr
  destination_node : Addr
  is_bidirectional : Bool
  weighted_value : Int
deriving DecidableEq, Repr

/-- The object heap: node objects, list objects (lists of edge addresses),
edge objects, and the next fresh address. -/
structure Heap where
  nodeAt : List (Addr × NodeObj)
  listAt : List (Addr × List Addr)
  edgeAt : List (Addr × EdgeObj)
  next : Addr
deriving DecidableEq, Repr

/-- Class `Graph` over the heap: `_nodes`/`_edges` map identifiers to object
addresses (Python names hold references). -/
structure HGraph where
  heap : Heap
  _nodes : List (Ident × Addr)
  _edges : List (Ident × Addr)
deriving DecidableEq, Repr

/-- State threaded through `copy.deepcopy`: the heap plus the memo tables
mapping already-copied addresses to their copies. -/
structure CopyState where
  heap : Heap
  nodeMemo : List (Addr × Addr)
  listMemo : List (Addr × Addr)
  edgeMemo : List (Addr × Addr)
deriving DecidableEq, Repr

mutual

/-- Deep copy of the node object at `a`: allocate the copy, memoise, deep-copy
the adjacency list, then fill in the copied field. -/
def copyNode : Nat → CopyState → Addr → Addr × CopyState
  | 0, st, a => (a, st)
  | fuel+1, st, a =>
    match dlookup a st.nodeMemo with
    | some a2 => (a2, st)
    | none =>
      match dlookup a st.heap.nodeAt with
      | none => (a, st)
      | some obj =>
        let a2 := st.heap.next
        let h1 : Heap :=
          { st.heap with
            nodeAt := dset st.heap.nodeAt a2 obj
            next := st.heap.next + 1 }
        let st1 : CopyState := { st with heap := h1, nodeMemo := dset st.nodeMemo a a2 }
        let r := copyList fuel st1 obj.connected_edges
        let h2 : Heap :=
          { r.2.heap with
            nodeAt := dset r.2.heap.nodeAt a2 { obj with connected_edges := r.1 } }
        (a2, { r.2 with heap := h2 })

/-- Deep copy of the list object at `a`: allocate the fresh list, memoise,
deep-copy the elements. -/
def copyList : Nat → CopyState → Addr → Addr × CopyState
  | 0, st, a => (a, st)
  | fuel+1, st, a =>
    match dlookup a st.listMemo with
    | some a2 => (a2, st)
    | none =>
      match dlookup a st.heap.listAt with
      | none => (a, st)
      | some es =>
        let a2 := st.heap.next
        let h1 : Heap :=
          { st.heap with
            listAt := dset st.heap.listAt a2 []
            next := st.heap.next + 1 }
        let st1 : CopyState := { st with heap := h1, listMemo := dset st.listMemo a a2 }
        let r := copyEdges fuel st1 es
        let h2 : Heap := { r.2.heap with listAt := dset r.2.heap.listAt a2 r.1 }
        (a2, { r.2 with heap := h2 })

/-- Deep copy of each edge address of a list. -/
def copyEdges : Nat → CopyState → List Addr → List Addr × CopyState
  | 0, st, es => (es, st)
  | _+1, st, [] => ([], st)
  | fuel+1, st, e :: rest =>
    let r1 := copyEdge fuel st e
    let r2 := copyEdges fuel r1.2 rest
    (r1.1 :: r2.1, r2.2)

/-- Deep copy of the edge object at `a`, copying both endpoint nodes. -/
def copyEdge : Nat → CopyState → Addr → Addr × CopyState
  | 0, st, a => (a, st)
  | fuel+1, st, a =>
    match dlookup a st.edgeMemo with
    | some a2 => (a2, st)
    | none =>
      match dlookup a st.heap.edgeAt with
      | none => (a, st)
      | some obj =>
        let a2 := st.heap.next
        let h1 : Heap :=
          { st.heap with
            edgeAt := dset st.heap.edgeAt a2 obj
            next := st.heap.next + 1 }
        let st1 : CopyState := { st with heap := h1, edgeMemo := dset st.edgeMemo a a2 }
        let r1 := copyNode fuel st1 obj.source_node
        let r2 := copyNode fuel r1.2 obj.destination_node
        let h2 : Heap :=
          { r2.2.heap with
            edgeAt := dset r2.2.heap.edgeAt a2
              { obj with source_node := r1.1, destination_node := r2.1 } }
        (a2, { r2.2 with heap := h2 })

end

/-- Fuel that exceeds the size of any object graph reachable in the heap (the
memo tables make each object copied at most once). -/
def copyFuel (h : Heap) : Nat :=
  (h.nodeAt.length + h.listAt.length + h.edgeAt.length
    + (h.listAt.map (fun p => p.2.length)).sum) * 2 + 2

/-- Method `get_node_by_id` with `get_copy=False`: returns the stored node by
reference (its address). -/
def HGraph.get_node_by_id_ref (g : HGraph) (node_id : Ident) : Option Addr :=
  dlookup node_id g._nodes

/-- Method `get_node_by_id` with `get_copy=True`:
`deepcopy(self._nodes[node_id])` — the copy's address plus the grown heap. -/
def HGraph.get_node_by_id_copy (g : HGraph) (node_id : Ident) : Option Addr × HGraph :=
  match dlookup node_id g._nodes with
  | none => (none, g)
  | some a =>
    let r := copyNode (copyFuel g.heap) ⟨g.heap, [], [], []⟩ a
    (some r.1, { g with heap := r.2.heap })

/-- In-place mutation of the node object at `a` (assigning its fields). -/
def writeNodeObj (g : HGraph) (a : Addr) (obj : NodeObj) : HGraph :=
  { g with heap := { g.heap with nodeAt := dset g.heap.nodeAt a obj } }

/-- In-place mutation of the list object at `a` (append/remove/assignment). -/
def writeList (g : HGraph) (a : Addr) (es : List Addr) : HGraph :=
  { g with heap := { g.heap with listAt := dset g.heap.listAt a es } }

/-- Everything `get_node_by_id(id, get_copy=False)` lets a caller observe of
the stored node: the node object and the contents of its adjacency-list
object. -/
def observeNode (g : HGraph) (node_id : Ident) : Option (NodeObj × Option (List Addr)) :=
  match HGraph.get_node_by_id_ref g node_id with
  | none => none
  | some a =>
    match dlookup a g.heap.nodeAt with
    | none => none
    | some obj => some (obj, dlookup obj.connected_edges g.heap.listAt)

/-- Heap well-formedness: every allocated address and every stored list
pointer is below `next` (true of every heap Python can build). -/
def Heap.wf (h : Heap) : Bool :=
  h.nodeAt.all (fun p => decide (p.1 < h.next) && decide (p.2.connected_edges < h.next)) &&
  h.listAt.all (fun p => decide (p.1 < h.next)) &&
  h.edgeAt.all (fun p => decide (p.1 < h.next))

theorem mem_of_dlookup {κ α : Type} [DecidableEq κ] :
    {d : List (κ × α)} → {k : κ} → {v : α} → dlookup k d = some v → (k, v) ∈ d := by
  intro d
  induction d with
  | nil => intro k v h; cases h
  | cons p rest ih =>
    intro k v h
    obtain ⟨k0, v0⟩ := p
    by_cases hk : k = k0
    · cases hk
      rw [dlookup_cons_self] at h
      cases h
      exact List.mem_cons_self (k, v) rest
    · rw [dlookup_cons_ne v0 rest hk] at h
      exact List.mem_cons_of_mem (k0, v0) (ih h)

/-- Frame relation between heaps: `next` grows, and every lookup at an address
below `N` is unchanged. -/
def FrameLe (N : Nat) (h h' : Heap) : Prop :=
  h.next ≤ h'.next ∧
  ∀ k, k < N →
    dlookup k h'.nodeAt = dlookup k h.nodeAt ∧
    dlookup k h'.listAt = dlookup k h.listAt ∧
    dlookup k h'.edgeAt = dlookup k h.edgeAt

theorem frameLe_refl (N : Nat) (h : Heap) : FrameLe N h h :=
  ⟨le_refl _, fun _ _ => ⟨rfl, rfl, rfl⟩⟩

theorem frameLe_trans {N : Nat} {h1 h2 h3 : Heap}
    (a : FrameLe N h1 h2) (b : FrameLe N h2 h3) : FrameLe N h1 h3 :=
  ⟨le_trans a.1 b.1, fun k hk =>
    ⟨(b.2 k hk).1.trans (a.2 k hk).1,
     (b.2 k hk).2.1.trans (a.2 k hk).2.1,
     (b.2 k hk).2.2.trans (a.2 k hk).2.2⟩⟩

/-- The copy functions only allocate at fresh addresses: every lookup below the
original `next` is untouched, whatever the fuel. -/
theorem copy_frame (N : Nat) (fuel : Nat) :
    (∀ st a, N ≤ st.heap.next → FrameLe N st.heap (copyNode fuel st a).2.heap) ∧
    (∀ st a, N ≤ st.heap.next → FrameLe N st.heap (copyList fuel st a).2.heap) ∧
    (∀ st es, N ≤ st.heap.next → FrameLe N st.heap (copyEdges fuel st es).2.heap) ∧
    (∀ st a, N ≤ st.heap.next → FrameLe N st.heap (copyEdge fuel st a).2.heap) := by
  induction fuel with
  | zero =>
    refine ⟨?_, ?_, ?_, ?_⟩ <;> intro st x _ <;> exact frameLe_refl N st.heap
  | succ fuel ih =>
    obtain ⟨ihN, ihL, ihEs, ihE⟩ := ih
    refine ⟨?_, ?_, ?_, ?_⟩
    · intro st a hN
      cases hm : dlookup a st.nodeMemo with
      | some a2 =>
        simp only [copyNode, hm]
        exact frameLe_refl N st.heap
      | none =>
        cases ho : dlookup a st.heap.nodeAt with
        | none =>
          simp only [copyNode, hm, ho]
          exact frameLe_refl N st.heap
        | some obj =>
          simp only [copyNode, hm, ho]
          have hs1 : FrameLe N st.heap
              ({ st.heap with nodeAt := dset st.heap.nodeAt st.heap.next obj, next := st.heap.next + 1 } : Heap) := by
            refine ⟨by simp, fun k hk => ?_⟩
            have hkne : k ≠ st.heap.next := by omega
            exact ⟨dlookup_dset_ne _ _ hkne, rfl, rfl⟩
          have hNle : N ≤ st.heap.next + 1 := by omega
          have hs2 := ihL ({ st with heap := { st.heap with nodeAt := dset st.heap.nodeAt st.heap.next obj, next := st.heap.next + 1 }, nodeMemo := dset st.nodeMemo a st.heap.next } : CopyState) obj.connected_edges hNle
          have hs12 := frameLe_trans hs1 hs2
          refine frameLe_trans hs12 ⟨le_refl _, fun k hk => ?_⟩
          have hkne : k ≠ st.heap.next := by omega
          exact ⟨dlookup_dset_ne _ _ hkne, rfl, rfl⟩
    · intro st a hN
      cases hm : dlookup a st.listMemo with
      | some a2 =>
        simp only [copyList, hm]
        exact frameLe_refl N st.heap
      | none =>
        cases ho : dlookup a st.heap.listAt with
        | none =>
          simp only [copyList, hm, ho]
          exact frameLe_refl N st.heap
        | some es =>
          simp only [copyList, hm, ho]
          have hs1 : FrameLe N st.heap
              ({ st.heap with listAt := dset st.heap.listAt st.heap.next [], next := st.heap.next + 1 } : Heap) := by
            refine ⟨by simp, fun k hk => ?_⟩
            have hkne : k ≠ st.heap.next := by omega
            exact ⟨rfl, dlookup_dset_ne _ _ hkne, rfl⟩
          have hNle : N ≤ st.heap.next + 1 := by omega
          have hs2 := ihEs ({ st with heap := { st.heap with listAt := dset st.heap.listAt st.heap.next [], next := st.heap.next + 1 }, listMemo := dset st.listMemo a st.heap.next } : CopyState) es hNle
          have hs12 := frameLe_trans hs1 hs2
          refine frameLe_trans hs12 ⟨le_refl _, fun k hk => ?_⟩
          have hkne : k ≠ st.heap.next := by omega
          exact ⟨rfl, dlookup_dset_ne _ _ hkne, rfl⟩
    · intro st es hN
      cases es with
      | nil =>
        simp only [copyEdges]
        exact frameLe_refl N st.heap
      | cons e rest =>
        simp only [copyEdges]
        have hs1 := ihE st e hN
        have hN2 : N ≤ (copyEdge fuel st e).2.heap.next := le_trans hN hs1.1
        have hs2 := ihEs (copyEdge fuel st e).2 rest hN2
        exact frameLe_trans hs1 hs2
    · intro st a hN
      cases hm : dlookup a st.edgeMemo with
      | some a2 =>
        simp only [copyEdge, hm]
        exact frameLe_refl N st.heap
      | none =>
        cases ho : dlookup a st.heap.edgeAt with
        | none =>
          simp only [copyEdge, hm, ho]
          exact frameLe_refl N st.heap
        | some obj =>
          simp only [copyEdge, hm, ho]
          have hs1 : FrameLe N st.heap
              ({ st.heap with edgeAt := dset st.heap.edgeAt st.heap.next obj, next := st.heap.next + 1 } : Heap) := by
            refine ⟨by simp, fun k hk => ?_⟩
            have hkne : k ≠ st.heap.next := by omega
            exact ⟨rfl, rfl, dlookup_dset_ne _ _ hkne⟩
          have hNle : N ≤ st.heap.next + 1 := by omega
          have hs2 := ihN ({ st with heap := { st.heap with edgeAt := dset st.heap.edgeAt st.heap.next obj, next := st.heap.next + 1 }, edgeMemo := dset st.edgeMemo a st.heap.next } : CopyState) obj.source_node hNle
          have hs12 := frameLe_trans hs1 hs2
          have hN3 : N ≤ (copyNode fuel ({ st with heap := { st.heap with edgeAt := dset st.heap.edgeAt st.heap.next obj, next := st.heap.next + 1 }, edgeMemo := dset st.edgeMemo a st.heap.next } : CopyState) obj.source_node).2.heap.next :=
            le_trans hNle hs2.1
          have hs3 := ihN (copyNode fuel ({ st with heap := { st.heap with edgeAt := dset st.heap.edgeAt st.heap.next obj, next := st.heap.next + 1 }, edgeMemo := dset st.edgeMemo a st.heap.next } : CopyState) obj.source_node).2 obj.destination_node hN3
          have hs123 := frameLe_trans hs12 hs3
          refine frameLe_trans hs123 ⟨le_refl _, fun k hk => ?_⟩
          have hkne : k ≠ st.heap.next := by omega
          exact ⟨rfl, rfl, dlookup_dset_ne _ _ hkne⟩

theorem copyNode_succ_spec (fuel : Nat) (st : CopyState) (a : Addr) (obj : NodeObj)
    (hm : dlookup a st.nodeMemo = none) (ho : dlookup a st.heap.nodeAt = some obj) :
    (copyNode (fuel+1) st a).1 = st.heap.next ∧
    dlookup st.heap.next (copyNode (fuel+1) st a).2.heap.nodeAt
      = some { obj with connected_edges :=
          (copyList fuel ({ st with heap := { st.heap with nodeAt := dset st.heap.nodeAt st.heap.next obj, next := st.heap.next + 1 }, nodeMemo := dset st.nodeMemo a st.heap.next } : CopyState) obj.connected_edges).1 } := by
  constructor
  · simp only [copyNode, hm, ho]
  · simp only [copyNode, hm, ho]
    exact dlookup_dset_self _ _ _

theorem copyList_succ_addr (fuel : Nat) (st : CopyState) (a : Addr) (es : List Addr)
    (hm : dlookup a st.listMemo = none) (ho : dlookup a st.heap.listAt = some es) :
    (copyList (fuel+1) st a).1 = st.heap.next := by
  simp only [copyList, hm, ho]

theorem wf_nodeAt {h : Heap} (hwf : h.wf = true) {a : Addr} {obj : NodeObj}
    (ha : dlookup a h.nodeAt = some obj) :
    a < h.next ∧ obj.connected_edges < h.next := by
  unfold Heap.wf at hwf
  simp only [Bool.and_eq_true, List.all_eq_true] at hwf
  have := hwf.1.1 (a, obj) (mem_of_dlookup ha)
  simpa using this

/-- C6: the object returned by `get_node_by_id(id, get_copy=True)` is a fresh
object (a distinct address) with an equal `id` and equal
`additional_parameters` but its OWN adjacency-list object; overwriting any
field of the copy, or the contents of the copy's adjacency list, leaves
everything `get_node_by_id(id, get_copy=False)` observes of the stored node
unchanged. -/
theorem claim6_copy_independence (g : HGraph) (i : Ident) (a c : Addr) (g2 : HGraph)
    (obj cobj : NodeObj) (es0 : List Addr)
    (hwf : g.heap.wf = true)
    (h1 : dlookup i g._nodes = some a)
    (h2 : dlookup a g.heap.nodeAt = some obj)
    (h3 : dlookup obj.connected_edges g.heap.listAt = some es0)
    (hcopy : g.get_node_by_id_copy i = (some c, g2))
    (hcobj : dlookup c g2.heap.nodeAt = some cobj) :
    c ≠ a ∧
    cobj.id = obj.id ∧
    cobj.additional_parameters = obj.additional_parameters ∧
    cobj.connected_edges ≠ obj.connected_edges ∧
    observeNode g i = some (obj, some es0) ∧
    observeNode g2 i = some (obj, some es0) ∧
    (∀ v, observeNode (writeNodeObj g2 c v) i = some (obj, some es0)) ∧
    (∀ es, observeNode (writeList g2 cobj.connected_edges es) i = some (obj, some es0)) := by
  obtain ⟨ha_lt, hce_lt⟩ := wf_nodeAt hwf h2
  have hF : copyFuel g.heap = (copyFuel g.heap - 2) + 1 + 1 := by
    unfold copyFuel
    omega
  have hunfold : g.get_node_by_id_copy i
      = (some (copyNode (copyFuel g.heap) (⟨g.heap, [], [], []⟩ : CopyState) a).1,
         { g with heap := (copyNode (copyFuel g.heap) (⟨g.heap, [], [], []⟩ : CopyState) a).2.heap }) := by
    unfold HGraph.get_node_by_id_copy
    rw [h1]
  rw [hF] at hunfold
  have hspec := copyNode_succ_spec ((copyFuel g.heap - 2) + 1)
    (⟨g.heap, [], [], []⟩ : CopyState) a obj rfl h2
  have hlistaddr : (copyList ((copyFuel g.heap - 2) + 1)
      ({ (⟨g.heap, [], [], []⟩ : CopyState) with
          heap := { g.heap with nodeAt := dset g.heap.nodeAt g.heap.next obj, next := g.heap.next + 1 },
          nodeMemo := dset ([] : List (Addr × Addr)) a g.heap.next } : CopyState)
      obj.connected_edges).1 = g.heap.next + 1 := by
    rcases Nat.exists_eq_add_of_le (show 1 ≤ (copyFuel g.heap - 2) + 1 by omega) with ⟨fu, hfu⟩
    rw [show (copyFuel g.heap - 2) + 1 = fu + 1 by omega]
    exact copyList_succ_addr fu _ obj.connected_edges es0 rfl h3
  have hframe := (copy_frame g.heap.next ((copyFuel g.heap - 2) + 1 + 1)).1
    (⟨g.heap, [], [], []⟩ : CopyState) a (le_refl _)
  rw [hunfold] at hcopy
  have hc : (copyNode ((copyFuel g.heap - 2) + 1 + 1) (⟨g.heap, [], [], []⟩ : CopyState) a).1 = c := by
    have := congrArg Prod.fst hcopy
    simpa using this
  have hg2 : g2 = { g with heap := (copyNode ((copyFuel g.heap - 2) + 1 + 1) (⟨g.heap, [], [], []⟩ : CopyState) a).2.heap } := by
    have := congrArg Prod.snd hcopy
    simpa using this.symm
  have hcval : c = g.heap.next := by rw [← hc, hspec.1]
  have hcobj_val : cobj = { obj with connected_edges := g.heap.next + 1 } := by
    have hl := hspec.2
    rw [hlistaddr] at hl
    rw [hg2] at hcobj
    rw [hcval] at hcobj
    rw [hcobj] at hl
    exact Option.some_inj.mp hl
  have hnodeAt2 : dlookup a g2.heap.nodeAt = some obj := by
    rw [hg2]
    exact ((hframe.2 a ha_lt).1).trans h2
  have hlistAt2 : dlookup obj.connected_edges g2.heap.listAt = some es0 := by
    rw [hg2]
    exact ((hframe.2 obj.connected_edges hce_lt).2.1).trans h3
  have hnodes2 : dlookup i g2._nodes = some a := by
    rw [hg2]
    exact h1
  have hcediff : cobj.connected_edges = g.heap.next + 1 := by
    rw [hcobj_val]
  have hlt1 : obj.connected_edges < g.heap.next + 1 :=
    lt_trans hce_lt (Nat.lt_succ_self _)
  refine ⟨?_, ?_, ?_, ?_, ?_, ?_, ?_, ?_⟩
  · rw [hcval]
    exact ne_of_gt ha_lt
  · rw [hcobj_val]
  · rw [hcobj_val]
  · rw [hcediff]
    exact ne_of_gt hlt1
  · unfold observeNode HGraph.get_node_by_id_ref
    simp only [h1, h2, h3]
  · unfold observeNode HGraph.get_node_by_id_ref
    simp only [hnodes2, hnodeAt2, hlistAt2]
  · intro v
    unfold observeNode HGraph.get_node_by_id_ref writeNodeObj
    have hanec : a ≠ c := by
      rw [hcval]
      exact ne_of_lt ha_lt
    have hstep : dlookup a (dset g2.heap.nodeAt c v) = some obj := by
      rw [dlookup_dset_ne g2.heap.nodeAt v hanec]
      exact hnodeAt2
    simp only [hnodes2, hstep, hlistAt2]
  · intro es
    unfold observeNode HGraph.get_node_by_id_ref writeList
    have hnec : obj.connected_edges ≠ cobj.connected_edges := by
      rw [hcediff]
      exact ne_of_lt hlt1
    have hstep : dlookup obj.connected_edges (dset g2.heap.listAt cobj.connected_edges es)
        = some es0 := by
      rw [dlookup_dset_ne g2.heap.listAt es hnec]
      exact hlistAt2
    simp only [hnodes2, hnodeAt2, hstep]

/- Concrete fixtures for the C6 witness: one node "A" with payload `"p"` and an
empty adjacency list, and the heap state after its deep copy. -/

def wObj : NodeObj := ⟨Ident.str ("A"), 1, some ("p")⟩

def wObjC : NodeObj := ⟨Ident.str ("A"), 3, some ("p")⟩

def wG : HGraph := ⟨⟨[(0, wObj)], [(1, [])], [], 2⟩, [(Ident.str ("A"), 0)], []⟩

def wG2 : HGraph := ⟨⟨[(0, wObj), (2, wObjC)], [(1, []), (3, [])], [], 4⟩, [(Ident.str ("A"), 0)], []⟩

/-- C6 (witness): mutating the copied node object (changing its payload) or the
copied adjacency-list object leaves the stored node's observation intact. -/
theorem claim6_witness :
    (2 : Addr) ≠ (0 : Addr) ∧
    observeNode (writeNodeObj wG2 2 ⟨Ident.str ("A"), 3, some ("q")⟩) (Ident.str ("A"))
      = some (wObj, some []) ∧
    observeNode (writeList wG2 wObjC.connected_edges [0]) (Ident.str ("A"))
      = some (wObj, some []) := by
  have T := claim6_copy_independence wG (Ident.str ("A")) 0 2 wG2 wObj wObjC []
    (by decide) (by decide) (by decide) (by decide) (by decide) (by decide)
  exact ⟨T.1, T.2.2.2.2.2.2.1 ⟨Ident.str ("A"), 3, some ("q")⟩, T.2.2.2.2.2.2.2 [0]⟩

end HeapModel

end Graphs
